import Mathlib

/-!
Shallow embedding of the point-morphing animation demo (`src/index.tsx`).

The source drives a fixed-size set of points between four 2-D arrangements
(phyllotaxis, grid, wave, spiral).  Numeric computation is embedded over `ℚ`
(the source's arithmetic on these paths is exact except for the noted
float-rounding remark at `numSteps * 0.8`, which for the code's constants
rounds to the exact value).  External collaborators (the `interpolateViridis`
colormap, the four generator closures handed to `makePoints`) are taken as
function parameters, exactly as the source closes over them.
-/

namespace Glimmer

/-- The `Layout` enum of the source (`PHYLLOTAXIS = 0, GRID, WAVE, SPIRAL`). -/
inductive Layout : Type
  | PHYLLOTAXIS
  | GRID
  | WAVE
  | SPIRAL
deriving DecidableEq

/-- `LAYOUT_ORDER`: the fixed cycle of arrangements toured by the animation. -/
def LAYOUT_ORDER : List Layout :=
  [Layout.PHYLLOTAXIS, Layout.SPIRAL, Layout.PHYLLOTAXIS, Layout.GRID, Layout.WAVE]

/-- The record stored per point: the eight projected anchor coordinates
(`gx gy wx wy sx sy px py` from `findAnchors`), the live position `x y`
(initialised to `0`), and the colour string (`interpolateViridis(i / count)`). -/
structure Point : Type where
  gx : ℚ
  gy : ℚ
  wx : ℚ
  wy : ℚ
  sx : ℚ
  sy : ℚ
  px : ℚ
  py : ℚ
  x : ℚ
  y : ℚ
  color : String
deriving DecidableEq

/-- `xForLayout`: the source returns the property NAME of the x-anchor for a
layout; in the embedding a property name is the corresponding accessor. -/
def xForLayout : Layout → Point → ℚ
  | Layout.PHYLLOTAXIS => Point.px
  | Layout.GRID => Point.gx
  | Layout.WAVE => Point.wx
  | Layout.SPIRAL => Point.sx

/-- `yForLayout`: accessor of the y-anchor for a layout. -/
def yForLayout : Layout → Point → ℚ
  | Layout.PHYLLOTAXIS => Point.py
  | Layout.GRID => Point.gy
  | Layout.WAVE => Point.wy
  | Layout.SPIRAL => Point.sy

/-- `lerp(obj, percent, startProp, endProp) = obj[startProp] +
(obj[endProp] - obj[startProp]) * percent` from the source. -/
def lerp (obj : Point) (percent : ℚ) (startProp endProp : Point → ℚ) : ℚ :=
  startProp obj + (endProp obj - startProp obj) * percent

/-- `numSteps = 60 * 2` from `Visualization`. -/
def numSteps : ℕ := 60 * 2

/-- The animation clock of `Visualization`: `layout` (index into
`LAYOUT_ORDER`) and `step` (the per-transition frame counter). -/
structure ClockState : Type where
  layout : ℕ
  step : ℕ
deriving DecidableEq

/-- The clock update at the head of `next()`:
`step = (step + 1) % numSteps; if (step === 0) layout = (layout + 1) % LAYOUT_ORDER.length`. -/
def tickClock (steps : ℕ) (c : ClockState) : ClockState :=
  { layout :=
      if (c.step + 1) % steps = 0 then (c.layout + 1) % LAYOUT_ORDER.length else c.layout
    step := (c.step + 1) % steps }

/-- `pct = Math.min(1, step / (numSteps * 0.8))` from `next()` (the blend). -/
def pct (steps stp : ℕ) : ℚ :=
  min 1 ((stp : ℚ) / ((steps : ℚ) * 0.8))

/-- `LAYOUT_ORDER[layout]`, the current arrangement of a clock state. -/
def currentLayoutOf (c : ClockState) : Layout :=
  LAYOUT_ORDER.getD c.layout Layout.PHYLLOTAXIS

/-- `LAYOUT_ORDER[(layout + 1) % LAYOUT_ORDER.length]`, the next arrangement. -/
def nextLayoutOf (c : ClockState) : Layout :=
  LAYOUT_ORDER.getD ((c.layout + 1) % LAYOUT_ORDER.length) Layout.PHYLLOTAXIS

/-- The per-point body of the `points.forEach` loop in `next()`:
`newPoint.x = lerp(newPoint, pct, pxProp, nxProp)` and then, on the already
x-updated record, `newPoint.y = lerp(newPoint, pct, pyProp, nyProp)`. -/
def updatePoint (percent : ℚ) (cur nxt : Layout) (pt : Point) : Point :=
  let pt1 := { pt with x := lerp pt percent (xForLayout cur) (xForLayout nxt) }
  { pt1 with y := lerp pt1 percent (yForLayout cur) (yForLayout nxt) }

/-- Full state of one `Visualization`: the clock plus the point array. -/
structure SysState : Type where
  clock : ClockState
  points : List Point
deriving DecidableEq

/-- One call of `next()`: advance the clock, compute the blend and the
current/next arrangement pair, and recompute every point's live position. -/
def next (steps : ℕ) (s : SysState) : SysState :=
  let c := tickClock steps s.clock
  let percent := pct steps c.step
  let cur := currentLayoutOf c
  let nxt := nextLayoutOf c
  { clock := c, points := s.points.map (updatePoint percent cur nxt) }

/-- The `requestAnimationFrame(() => { next() })` callback: it receives a
timestamp from the host's display loop and ignores it. -/
def nextTimed (steps : ℕ) (timestamp : ℚ) (s : SysState) : SysState :=
  next steps s

/-- A run of `k` frames: the host supplies a timestamp `ts j` to the `j`-th
scheduled callback. -/
def run (steps : ℕ) (ts : ℕ → ℚ) (s : SysState) : ℕ → SysState
  | 0 => s
  | k + 1 => nextTimed steps (ts k) (run steps ts s k)

/-- `project`: scale by `min(innerHeight/2, innerWidth/2)` and translate by
`(innerWidth/2, innerHeight/2)`; viewport dimensions are the parameters the
source reads from `window`. -/
def project (viewportWidth viewportHeight : ℚ) (v : ℚ × ℚ) : ℚ × ℚ :=
  let wh := viewportHeight / 2
  let ww := viewportWidth / 2
  (v.1 * min wh ww + ww, v.2 * min wh ww + wh)

/-- `Math.round(Math.sqrt n)` of `genGrid` for a natural `n`, computed
exactly: `round (√n) = s` when `√n < s + 1/2`, i.e. `n ≤ s² + s` for
`s = ⌊√n⌋`, else `s + 1`. -/
def rowLength (n : ℕ) : ℕ :=
  if n ≤ Nat.sqrt n * Nat.sqrt n + Nat.sqrt n then Nat.sqrt n else Nat.sqrt n + 1

/-- `genGrid n i = (-0.8 + 1.6/rowLength * (i % rowLength),
-0.8 + 1.6/rowLength * floor(i / rowLength))`. -/
def genGrid (n i : ℕ) : ℚ × ℚ :=
  (-0.8 + 1.6 / (rowLength n : ℚ) * ((i % rowLength n : ℕ) : ℚ),
   -0.8 + 1.6 / (rowLength n : ℚ) * ((i / rowLength n : ℕ) : ℚ))

/-- `genWave`'s `xScale = 2 / (n - 1)`.  In the source this is IEEE float
division: a zero divisor makes `xScale` the non-finite `Infinity`; a nonzero
divisor with finite operands gives a finite value.  `none` models the
non-finite outcome. -/
def waveXScale (n : ℕ) : Option ℚ :=
  if (n : ℚ) - 1 = 0 then none else some (2 / ((n : ℚ) - 1))

/-- `genSpiral`'s radicand `i / (n - 1)` under `t = Math.sqrt(i / (n - 1))`.
With a zero divisor the float quotient is `NaN` (for `i = 0`) or `Infinity`,
and `t = sqrt` of it is again non-finite; `none` models the non-finite
outcome, so `t` is finite exactly when this is `some`. -/
def spiralRadicand (n i : ℕ) : Option ℚ :=
  if (n : ℚ) - 1 = 0 then none else some ((i : ℚ) / ((n : ℚ) - 1))

/-- `makePoints` from `Visualization`: for `i < count` build the point record
from the four projected anchors (`findAnchors`), live position `(0, 0)` and
colour `colormap (i / count)`.  The four generators and the colormap are the
closures/imports the source function uses. -/
def makePoints (count : ℕ) (vw vh : ℚ) (grid wave spiral phyllotaxis : ℕ → ℚ × ℚ)
    (colormap : ℚ → String) : List Point :=
  (List.range count).map fun i =>
    { gx := (project vw vh (grid i)).1
      gy := (project vw vh (grid i)).2
      wx := (project vw vh (wave i)).1
      wy := (project vw vh (wave i)).2
      sx := (project vw vh (spiral i)).1
      sy := (project vw vh (spiral i)).2
      px := (project vw vh (phyllotaxis i)).1
      py := (project vw vh (phyllotaxis i)).2
      x := 0
      y := 0
      color := colormap ((i : ℚ) / (count : ℚ)) }

/-- A concrete point record used to instantiate theorems at concrete inputs. -/
def ptA : Point :=
  { gx := 1, gy := 2, wx := 3, wy := 4, sx := 5, sy := 6, px := 7, py := 8,
    x := 0, y := 0, color := "c" }

theorem pct_nonneg (steps stp : ℕ) : 0 ≤ pct steps stp := by
  unfold pct
  have h1 : (0 : ℚ) ≤ (stp : ℚ) / ((steps : ℚ) * 0.8) := by positivity
  exact le_min (by norm_num) h1

/-- C2: for every tick, the blend fraction satisfies `0 ≤ blend ≤ 1`, and
`blend = 1` whenever `stepIndex ≥ 0.8 · stepsPerTransition`. -/
theorem blend_bounds (steps stp : ℕ) (h : 0 < steps) :
    0 ≤ pct steps stp ∧ pct steps stp ≤ 1 ∧
      ((steps : ℚ) * 0.8 ≤ (stp : ℚ) → pct steps stp = 1) := by
  refine ⟨pct_nonneg steps stp, min_le_left _ _, fun hge => ?_⟩
  unfold pct
  have hpos : (0 : ℚ) < (steps : ℚ) * 0.8 := by
    have : (0 : ℚ) < (steps : ℚ) := by exact_mod_cast h
    nlinarith
  have h1 : (1 : ℚ) ≤ (stp : ℚ) / ((steps : ℚ) * 0.8) :=
    (one_le_div hpos).mpr hge
  exact min_eq_left h1

theorem blend_bounds_witness :
    0 < 120 ∧
      (0 ≤ pct 120 100 ∧ pct 120 100 ≤ 1 ∧
        ((120 : ℚ) * 0.8 ≤ (100 : ℚ) → pct 120 100 = 1)) :=
  ⟨by norm_num, blend_bounds 120 100 (by norm_num)⟩

set_option maxRecDepth 20000 in
/-- C3: counting the source's initial synchronous `next()` call as the
pre-increment (tick 1), the clock pair `(cyclePosition, stepIndex)` returns to
its tick-1 value `(0, 1)` after exactly `stepsPerTransition · cycleLength`
further ticks. -/
theorem cycle_wrap :
    (tickClock numSteps)^[numSteps * LAYOUT_ORDER.length] ((tickClock numSteps)^[1] ⟨0, 0⟩)
        = (tickClock numSteps)^[1] ⟨0, 0⟩ ∧
      (tickClock numSteps)^[1] (⟨0, 0⟩ : ClockState) = ⟨0, 1⟩ := by
  decide

/-- C4 counterexample: for `count = 9` no grid coordinate equals `0.8`; the
largest, attained at `i = 8`, is `4/15 ≈ 0.2667`, so the 3×3 lattice does not
span `[-0.8, 0.8]`. -/
theorem grid_span_counterexample :
    ¬ ((0.8 : ℚ) ∈ (List.range 9).map (fun i => (genGrid 9 i).1)) ∧
      ¬ ((0.8 : ℚ) ∈ (List.range 9).map (fun i => (genGrid 9 i).2)) ∧
      genGrid 9 8 = (4 / 15, 4 / 15) := by
  norm_num [genGrid, rowLength, List.range_succ]

/-- C4 (amended): for `count = 9` the Grid generator uses `rowLength = 3` and
the 9 unnormalized coordinates form the 3×3 lattice with step
`1.6/3 = 8/15 = 0.5333…` spanning `[-0.8, 4/15]` (not `[-0.8, 0.8]`) in both
axes. -/
theorem grid_lattice_9 :
    rowLength 9 = 3 ∧
      (List.range 9).map (genGrid 9) =
        [(-4/5, -4/5), (-4/15, -4/5), (4/15, -4/5),
         (-4/5, -4/15), (-4/15, -4/15), (4/15, -4/15),
         (-4/5, 4/15), (-4/15, 4/15), (4/15, 4/15)] := by
  norm_num [genGrid, rowLength, List.range_succ, Prod.ext_iff]

/-- C6: projecting `(0,0)` yields the viewport centre `(w/2, h/2)`, and
projecting `(1,0)` yields `(w/2 + min w h / 2, h/2)`. -/
theorem project_center_and_unit (w h : ℚ) (hw : 0 < w) (hh : 0 < h) :
    project w h (0, 0) = (w / 2, h / 2) ∧
      project w h (1, 0) = (w / 2 + min w h / 2, h / 2) := by
  have hmin : min (h / 2) (w / 2) = min w h / 2 := by
    rw [min_comm, min_div_div_right (by norm_num : (0 : ℚ) ≤ 2)]
  constructor
  · simp [project]
  · simp [project, hmin, add_comm]

theorem project_center_and_unit_witness :
    0 < (3 : ℚ) ∧ 0 < (5 : ℚ) ∧
      (project 3 5 (0, 0) = (3 / 2, 5 / 2) ∧
        project 3 5 (1, 0) = (3 / 2 + min 3 5 / 2, 5 / 2)) :=
  ⟨by norm_num, by norm_num, project_center_and_unit 3 5 (by norm_num) (by norm_num)⟩

/-- C7: for `n ≥ 2` the Wave and Spiral generators divide only by the nonzero
`n - 1`, so `xScale` and the radicand of `t` are finite (`isSome`); for
`n = 1` the divisor is zero and both are non-finite (`none`). -/
theorem wave_spiral_divisor (n : ℕ) :
    (2 ≤ n →
        ((n : ℚ) - 1 ≠ 0 ∧ (waveXScale n).isSome ∧ ∀ i : ℕ, (spiralRadicand n i).isSome)) ∧
      ((1 : ℚ) - 1 = 0 ∧ waveXScale 1 = none ∧ ∀ i : ℕ, spiralRadicand 1 i = none) := by
  constructor
  · intro h2
    have hn : (2 : ℚ) ≤ (n : ℚ) := by exact_mod_cast h2
    have hne : (n : ℚ) - 1 ≠ 0 := by intro hc; linarith
    exact ⟨hne, by simp [waveXScale, hne], fun i => by simp [spiralRadicand, hne]⟩
  · exact ⟨by norm_num, by simp [waveXScale], fun i => by simp [spiralRadicand]⟩

theorem wave_spiral_divisor_witness :
    (waveXScale 3).isSome ∧ (spiralRadicand 3 7).isSome ∧ waveXScale 1 = none :=
  ⟨((wave_spiral_divisor 3).1 (by norm_num)).2.1,
    ((wave_spiral_divisor 3).1 (by norm_num)).2.2 7,
    (wave_spiral_divisor 3).2.2.1⟩

theorem rowLength_pos (n : ℕ) (hn : 1 ≤ n) : 0 < rowLength n := by
  unfold rowLength
  have hs : 0 < Nat.sqrt n := Nat.sqrt_pos.mpr hn
  split <;> omega

theorem le_rowLength_mul_succ (n : ℕ) : n ≤ rowLength n * (rowLength n + 1) := by
  unfold rowLength
  have h1 : Nat.sqrt n * Nat.sqrt n ≤ n := Nat.sqrt_le n
  have h2 : n < (Nat.sqrt n + 1) * (Nat.sqrt n + 1) := Nat.lt_succ_sqrt n
  split <;> nlinarith

theorem grid_coord_bounded (r k : ℕ) (hr : 0 < r) (hk : k ≤ r) :
    -0.8 ≤ -0.8 + 1.6 / (r : ℚ) * (k : ℚ) ∧ -0.8 + 1.6 / (r : ℚ) * (k : ℚ) ≤ 0.8 := by
  have hrq : (0 : ℚ) < (r : ℚ) := by exact_mod_cast hr
  have hkq : (k : ℚ) ≤ (r : ℚ) := by exact_mod_cast hk
  have hnn : (0 : ℚ) ≤ 1.6 / (r : ℚ) := by positivity
  constructor
  · have : (0 : ℚ) ≤ 1.6 / (r : ℚ) * (k : ℚ) := by positivity
    linarith
  · have hle : 1.6 / (r : ℚ) * (k : ℚ) ≤ 1.6 / (r : ℚ) * (r : ℚ) :=
      mul_le_mul_of_nonneg_left hkq hnn
    have hcancel : 1.6 / (r : ℚ) * (r : ℚ) = 1.6 := by
      field_simp
    rw [hcancel] at hle
    linarith

/-- C10: for every `n ≥ 1` and index `i < n`, both Grid coordinates lie in
`[-0.8, 0.8]`, because `rowLength = round (√n)` guarantees
`⌊i / rowLength⌋ ≤ rowLength`. -/
theorem grid_bounded (n i : ℕ) (hn : 1 ≤ n) (hi : i < n) :
    (-0.8 ≤ (genGrid n i).1 ∧ (genGrid n i).1 ≤ 0.8) ∧
      (-0.8 ≤ (genGrid n i).2 ∧ (genGrid n i).2 ≤ 0.8) ∧
      i / rowLength n ≤ rowLength n := by
  have hr : 0 < rowLength n := rowLength_pos n hn
  have hdiv : i / rowLength n ≤ rowLength n := by
    have hlt : i < (rowLength n + 1) * rowLength n := by
      have := le_rowLength_mul_succ n
      calc i < n := hi
        _ ≤ rowLength n * (rowLength n + 1) := this
        _ = (rowLength n + 1) * rowLength n := Nat.mul_comm _ _
    have := (Nat.div_lt_iff_lt_mul hr).mpr hlt
    omega
  have hmod : i % rowLength n ≤ rowLength n := le_of_lt (Nat.mod_lt i hr)
  exact ⟨grid_coord_bounded (rowLength n) (i % rowLength n) hr hmod,
    grid_coord_bounded (rowLength n) (i / rowLength n) hr hdiv, hdiv⟩

theorem getD_map_of_lt {α β : Type} (f : α → β) (l : List α) (i : ℕ) (d : β) (e : α)
    (hi : i < l.length) : (l.map f).getD i d = f (l.getD i e) := by
  have h1 : i < (l.map f).length := by simpa using hi
  rw [List.getD_eq_getElem _ _ h1, List.getD_eq_getElem _ _ hi, List.getElem_map]

theorem xForLayout_updatePoint (l : Layout) (b : ℚ) (c n : Layout) (q : Point) :
    xForLayout l (updatePoint b c n q) = xForLayout l q := by
  cases l <;> rfl

theorem yForLayout_updatePoint (l : Layout) (b : ℚ) (c n : Layout) (q : Point) :
    yForLayout l (updatePoint b c n q) = yForLayout l q := by
  cases l <;> rfl

theorem updatePoint_x (b : ℚ) (c n : Layout) (q : Point) :
    (updatePoint b c n q).x = xForLayout c q + (xForLayout n q - xForLayout c q) * b := by
  rfl

theorem updatePoint_y (b : ℚ) (c n : Layout) (q : Point) :
    (updatePoint b c n q).y = yForLayout c q + (yForLayout n q - yForLayout c q) * b := by
  cases c <;> cases n <;> rfl

theorem next_points (steps : ℕ) (s : SysState) :
    (next steps s).points =
      s.points.map
        (updatePoint (pct steps (tickClock steps s.clock).step)
          (currentLayoutOf (tickClock steps s.clock)) (nextLayoutOf (tickClock steps s.clock))) :=
  rfl

/-- C1: after the clock advance, every point's live position is set to the
interpolation `a + (b - a) · blend` of its anchor in the current arrangement
toward its anchor in the next arrangement, and the update does not read the
point's previous live position (points agreeing on anchors get equal live
positions). -/
theorem tick_sets_live_by_lerp (steps : ℕ) (s : SysState) (i : ℕ) (d : Point)
    (hi : i < s.points.length) :
    (((next steps s).points.getD i d).x
        = xForLayout (currentLayoutOf (tickClock steps s.clock)) (s.points.getD i d)
          + (xForLayout (nextLayoutOf (tickClock steps s.clock)) (s.points.getD i d)
              - xForLayout (currentLayoutOf (tickClock steps s.clock)) (s.points.getD i d))
            * pct steps (tickClock steps s.clock).step
      ∧ ((next steps s).points.getD i d).y
        = yForLayout (currentLayoutOf (tickClock steps s.clock)) (s.points.getD i d)
          + (yForLayout (nextLayoutOf (tickClock steps s.clock)) (s.points.getD i d)
              - yForLayout (currentLayoutOf (tickClock steps s.clock)) (s.points.getD i d))
            * pct steps (tickClock steps s.clock).step)
    ∧ ∀ (b : ℚ) (cur nxt : Layout) (p q : Point),
        p.gx = q.gx → p.gy = q.gy → p.wx = q.wx → p.wy = q.wy →
        p.sx = q.sx → p.sy = q.sy → p.px = q.px → p.py = q.py →
        (updatePoint b cur nxt p).x = (updatePoint b cur nxt q).x
          ∧ (updatePoint b cur nxt p).y = (updatePoint b cur nxt q).y := by
  constructor
  · rw [next_points, getD_map_of_lt _ _ _ _ d hi]
    exact ⟨updatePoint_x _ _ _ _, updatePoint_y _ _ _ _⟩
  · intro b cur nxt p q h1 h2 h3 h4 h5 h6 h7 h8
    rw [updatePoint_x, updatePoint_x, updatePoint_y, updatePoint_y]
    cases cur <;> cases nxt <;>
      simp [xForLayout, yForLayout, h1, h2, h3, h4, h5, h6, h7, h8]

theorem tick_sets_live_by_lerp_witness :
    0 < (⟨⟨0, 0⟩, [ptA]⟩ : SysState).points.length ∧
      (((next 10 ⟨⟨0, 0⟩, [ptA]⟩).points.getD 0 ptA).x
          = xForLayout (currentLayoutOf (tickClock 10 (⟨0, 0⟩ : ClockState))) ((([ptA] : List Point)).getD 0 ptA)
            + (xForLayout (nextLayoutOf (tickClock 10 (⟨0, 0⟩ : ClockState))) ((([ptA] : List Point)).getD 0 ptA)
                - xForLayout (currentLayoutOf (tickClock 10 (⟨0, 0⟩ : ClockState))) ((([ptA] : List Point)).getD 0 ptA))
              * pct 10 (tickClock 10 (⟨0, 0⟩ : ClockState)).step
        ∧ ((next 10 ⟨⟨0, 0⟩, [ptA]⟩).points.getD 0 ptA).y
          = yForLayout (currentLayoutOf (tickClock 10 (⟨0, 0⟩ : ClockState))) ((([ptA] : List Point)).getD 0 ptA)
            + (yForLayout (nextLayoutOf (tickClock 10 (⟨0, 0⟩ : ClockState))) ((([ptA] : List Point)).getD 0 ptA)
                - yForLayout (currentLayoutOf (tickClock 10 (⟨0, 0⟩ : ClockState))) ((([ptA] : List Point)).getD 0 ptA))
              * pct 10 (tickClock 10 (⟨0, 0⟩ : ClockState)).step)
      ∧ ∀ (b : ℚ) (cur nxt : Layout) (p q : Point),
          p.gx = q.gx → p.gy = q.gy → p.wx = q.wx → p.wy = q.wy →
          p.sx = q.sx → p.sy = q.sy → p.px = q.px → p.py = q.py →
          (updatePoint b cur nxt p).x = (updatePoint b cur nxt q).x
            ∧ (updatePoint b cur nxt p).y = (updatePoint b cur nxt q).y :=
  ⟨by norm_num, tick_sets_live_by_lerp 10 ⟨⟨0, 0⟩, [ptA]⟩ 0 ptA (by norm_num)⟩

/-- C5: rebuilding produces exactly `count` points in index order; point `i`
carries the four projected anchors `project (gen i)`, colour
`colormap (i / count)` and live position `(0, 0)` — the output is fully
determined by the arguments, so nothing of a prior set survives. -/
theorem makePoints_spec (count : ℕ) (vw vh : ℚ) (g w sp ph : ℕ → ℚ × ℚ) (cm : ℚ → String)
    (hc : 1 ≤ count) :
    (makePoints count vw vh g w sp ph cm).length = count ∧
      ∀ i : ℕ, i < count → ∀ d : Point,
        (makePoints count vw vh g w sp ph cm).getD i d =
          { gx := (project vw vh (g i)).1
            gy := (project vw vh (g i)).2
            wx := (project vw vh (w i)).1
            wy := (project vw vh (w i)).2
            sx := (project vw vh (sp i)).1
            sy := (project vw vh (sp i)).2
            px := (project vw vh (ph i)).1
            py := (project vw vh (ph i)).2
            x := 0
            y := 0
            color := cm ((i : ℚ) / (count : ℚ)) } := by
  constructor
  · simp [makePoints]
  · intro i hi d
    have hlen : i < (List.range count).length := by simpa using hi
    unfold makePoints
    rw [getD_map_of_lt _ _ _ _ 0 hlen, List.getD_eq_getElem _ _ hlen, List.getElem_range]

theorem makePoints_spec_witness :
    1 ≤ 1 ∧
      ((makePoints 1 6 4 (fun j => ((j : ℚ), 0)) (fun _ => (0, 1)) (fun _ => (1, 1))
            (fun _ => (0, 0)) (fun _ => "v")).length = 1 ∧
        ∀ i : ℕ, i < 1 → ∀ d : Point,
          (makePoints 1 6 4 (fun j => ((j : ℚ), 0)) (fun _ => (0, 1)) (fun _ => (1, 1))
              (fun _ => (0, 0)) (fun _ => "v")).getD i d =
            { gx := (project 6 4 ((i : ℚ), 0)).1
              gy := (project 6 4 ((i : ℚ), 0)).2
              wx := (project 6 4 (0, 1)).1
              wy := (project 6 4 (0, 1)).2
              sx := (project 6 4 (1, 1)).1
              sy := (project 6 4 (1, 1)).2
              px := (project 6 4 (0, 0)).1
              py := (project 6 4 (0, 0)).2
              x := 0
              y := 0
              color := "v" }) :=
  ⟨le_refl 1,
    makePoints_spec 1 6 4 (fun j => ((j : ℚ), 0)) (fun _ => (0, 1)) (fun _ => (1, 1))
      (fun _ => (0, 0)) (fun _ => "v") (le_refl 1)⟩

/-- C8: for a fixed point count, cycle order and step budget, two runs from
the initial state — under arbitrary, possibly different timestamp sequences
supplied by the display loop — produce identical live-position sequences,
tick for tick. -/
theorem run_deterministic (count steps : ℕ) (vw vh : ℚ) (g w sp ph : ℕ → ℚ × ℚ)
    (cm : ℚ → String) (ts1 ts2 : ℕ → ℚ) (k : ℕ) :
    (run steps ts1 ⟨⟨0, 0⟩, makePoints count vw vh g w sp ph cm⟩ k).points.map
        (fun p => (p.x, p.y))
      = (run steps ts2 ⟨⟨0, 0⟩, makePoints count vw vh g w sp ph cm⟩ k).points.map
          (fun p => (p.x, p.y)) := by
  have hrun : ∀ (s : SysState) (m : ℕ), run steps ts1 s m = run steps ts2 s m := by
    intro s m
    induction m with
    | zero => rfl
    | succ m ih => simp only [run, nextTimed, ih]
  rw [hrun]

/-- C9: when a tick wraps `stepIndex` to 0 and advances `cyclePosition`
(and `stepsPerTransition ≥ 5`, as with the code's 120), the freshly computed
live position at blend 0 equals the live position of the immediately
preceding tick, whose blend was clamped at 1 toward the arrangement that has
just become current: no point jumps at the arrangement change. -/
theorem no_jump_at_wrap (steps : ℕ) (h5 : 5 ≤ steps) (s : SysState)
    (hs : s.clock.step = steps - 2) (i : ℕ) (d : Point) (hi : i < s.points.length) :
    (next steps (next steps s)).clock.step = 0 ∧
      (next steps (next steps s)).clock.layout
        = (s.clock.layout + 1) % LAYOUT_ORDER.length ∧
      ((next steps (next steps s)).points.getD i d).x = ((next steps s).points.getD i d).x ∧
      ((next steps (next steps s)).points.getD i d).y = ((next steps s).points.getD i d).y := by
  have hc1 : tickClock steps s.clock = ⟨s.clock.layout, steps - 1⟩ := by
    unfold tickClock
    rw [hs]
    have he : steps - 2 + 1 = steps - 1 := by omega
    rw [he, Nat.mod_eq_of_lt (by omega)]
    have hne : ¬(steps - 1 = 0) := by omega
    simp [hne]
  have hclock1 : (next steps s).clock = ⟨s.clock.layout, steps - 1⟩ := hc1
  have hq5 : (5 : ℚ) ≤ (steps : ℚ) := by exact_mod_cast h5
  have hpct1 : pct steps (steps - 1) = 1 := by
    unfold pct
    apply min_eq_left
    have hcast : ((steps - 1 : ℕ) : ℚ) = (steps : ℚ) - 1 := by
      push_cast [Nat.cast_sub (by omega : 1 ≤ steps)]
      ring
    rw [hcast]
    have hpos : (0 : ℚ) < (steps : ℚ) * 0.8 := by nlinarith
    rw [one_le_div hpos]
    nlinarith
  have hc2 : tickClock steps ⟨s.clock.layout, steps - 1⟩
      = ⟨(s.clock.layout + 1) % LAYOUT_ORDER.length, 0⟩ := by
    unfold tickClock
    have he : steps - 1 + 1 = steps := by omega
    simp [he, Nat.mod_self]
  have hpct0 : pct steps 0 = 0 := by
    unfold pct
    norm_num
  have hp1 : (next steps s).points =
      s.points.map
        (updatePoint 1 (currentLayoutOf ⟨s.clock.layout, steps - 1⟩)
          (nextLayoutOf ⟨s.clock.layout, steps - 1⟩)) := by
    rw [next_points, hc1]
    simp [hpct1]
  have hp2 : (next steps (next steps s)).points =
      ((next steps s).points).map
        (updatePoint 0 (currentLayoutOf ⟨(s.clock.layout + 1) % LAYOUT_ORDER.length, 0⟩)
          (nextLayoutOf ⟨(s.clock.layout + 1) % LAYOUT_ORDER.length, 0⟩)) := by
    rw [next_points, hclock1, hc2]
    simp [hpct0]
  have hck : (next steps (next steps s)).clock
      = ⟨(s.clock.layout + 1) % LAYOUT_ORDER.length, 0⟩ := by
    show tickClock steps (next steps s).clock = _
    rw [hclock1, hc2]
  have hlen1 : i < (next steps s).points.length := by
    rw [hp1]
    simpa using hi
  have hlay : currentLayoutOf ⟨(s.clock.layout + 1) % LAYOUT_ORDER.length, 0⟩
      = nextLayoutOf ⟨s.clock.layout, steps - 1⟩ := rfl
  refine ⟨by rw [hck], by rw [hck], ?_, ?_⟩
  · rw [hp2, getD_map_of_lt _ _ _ _ d hlen1, updatePoint_x, hlay]
    conv_rhs => rw [hp1, getD_map_of_lt _ _ _ _ d hi, updatePoint_x]
    rw [hp1, getD_map_of_lt _ _ _ _ d hi, xForLayout_updatePoint, xForLayout_updatePoint]
    ring
  · rw [hp2, getD_map_of_lt _ _ _ _ d hlen1, updatePoint_y, hlay]
    conv_rhs => rw [hp1, getD_map_of_lt _ _ _ _ d hi, updatePoint_y]
    rw [hp1, getD_map_of_lt _ _ _ _ d hi, yForLayout_updatePoint, yForLayout_updatePoint]
    ring

theorem no_jump_at_wrap_witness :
    5 ≤ 120 ∧ (⟨⟨0, 118⟩, [ptA]⟩ : SysState).clock.step = 120 - 2 ∧
      0 < (⟨⟨0, 118⟩, [ptA]⟩ : SysState).points.length ∧
      ((next 120 (next 120 ⟨⟨0, 118⟩, [ptA]⟩)).clock.step = 0 ∧
        (next 120 (next 120 ⟨⟨0, 118⟩, [ptA]⟩)).clock.layout
          = ((⟨⟨0, 118⟩, [ptA]⟩ : SysState).clock.layout + 1) % LAYOUT_ORDER.length ∧
        ((next 120 (next 120 ⟨⟨0, 118⟩, [ptA]⟩)).points.getD 0 ptA).x
          = ((next 120 ⟨⟨0, 118⟩, [ptA]⟩).points.getD 0 ptA).x ∧
        ((next 120 (next 120 ⟨⟨0, 118⟩, [ptA]⟩)).points.getD 0 ptA).y
          = ((next 120 ⟨⟨0, 118⟩, [ptA]⟩).points.getD 0 ptA).y) :=
  ⟨by norm_num, by norm_num, by norm_num,
    no_jump_at_wrap 120 (by norm_num) ⟨⟨0, 118⟩, [ptA]⟩ (by norm_num) 0 ptA (by norm_num)⟩

theorem grid_bounded_witness :
    1 ≤ 5 ∧ 4 < 5 ∧
      ((-0.8 ≤ (genGrid 5 4).1 ∧ (genGrid 5 4).1 ≤ 0.8) ∧
        (-0.8 ≤ (genGrid 5 4).2 ∧ (genGrid 5 4).2 ≤ 0.8) ∧
        4 / rowLength 5 ≤ rowLength 5) :=
  ⟨by norm_num, by norm_num, grid_bounded 5 4 (by norm_num) (by norm_num)⟩

end Glimmer
